import Mathlib

/-!
# Verification of `pkg/util/volume_util_linux.go`

A shallow embedding of the four functions of the file
(`GetBlockCapacityByte`, `IsBlock`, `GetFilesystemAttributes`,
`parseUdevPropertyData`) and the properties proved about them.

Conventions of the embedding:

* a Go `string` / `[]byte` is a `List Char` (`GoString`); the only separators
  the code splits on are the one-byte ASCII characters `\n` and `=`;
* a Go function returning `(T, error)` returns a Lean pair whose second
  component is `Option GoError` (`none` is the `nil` error); a nilable
  result (`map`, pointer) is an `Option`;
* system calls and the child process are parameters of the functions (the
  environment), so every theorem quantifies over all their outcomes;
* machine integers are natural numbers / integers with explicit reduction
  modulo `2 ^ 64`.
-/

namespace VolumeUtil

/-! ## Strings, errors, maps -/

/-- A Go string (equally a byte slice converted with `string(data)`). -/
abbrev GoString := List Char

/-- A Go string constant. -/
def str (s : String) : GoString := s.toList

/-- The values of Go's `error` interface that flow through the file:
`errors.New` values, `syscall.Errno` values, and the errors produced by
the `os` / `os/exec` packages (`*PathError`, `*ExitError`, ...). -/
inductive GoError where
  | errorString (msg : String)
  | errno (e : Nat)
  | osError (descr : String)
deriving DecidableEq, Repr

/-- A non-nil Go `map[string]string`: an association list with at most one
entry per key. -/
abbrev GoMap := List (GoString × GoString)

/-- Lookup of a key: the `v, ok := m[k]` form. -/
def GoMap.get : GoMap → GoString → Option GoString
  | [], _ => none
  | (k0, v0) :: rest, k => if k = k0 then some v0 else GoMap.get rest k

/-- The assignment `m[k] = v`: any previous binding of `k` is overwritten. -/
def GoMap.set (m : GoMap) (k v : GoString) : GoMap :=
  (k, v) :: m.filter (fun p => !decide (p.1 = k))

/-- The index expression `m[k]` on a possibly nil map: the zero value `""`
when the key is absent (or the map is nil). -/
def mapIndex (m : Option GoMap) (k : GoString) : GoString :=
  match m with
  | none => []
  | some m => (m.get k).getD []

/-- Go's `strings.Split(s, sep)` for a one-character separator: the
substrings between the occurrences of `sep`; `n` occurrences give `n + 1`
substrings, and the empty string gives one empty substring. -/
def stringsSplit (s : GoString) (sep : Char) : List GoString :=
  match s with
  | [] => [[]]
  | c :: cs =>
    if c = sep then [] :: stringsSplit cs sep
    else
      match stringsSplit cs sep with
      | [] => [[c]]
      | h :: t => (c :: h) :: t

/-! ## `parseUdevPropertyData` -/

/-- The error value built at line 93. -/
def parseError : GoError :=
  GoError.errorString "error parsing udev property data, expected format <name>=<value>"

/-- The `for _, l := range lines` loop of `parseUdevPropertyData`, with the
map `res` built so far. -/
def parseLoop (res : GoMap) : List GoString → Option GoMap × Option GoError
  | [] => (some res, none)
  | l :: ls =>
    if l.length = 0 then parseLoop res ls
    else
      match stringsSplit l '=' with
      | [key, value] => parseLoop (res.set key value) ls
      | _ => (none, some parseError)

/-- Embedding of `parseUdevPropertyData`. -/
def parseUdevPropertyData (data : GoString) : Option GoMap × Option GoError :=
  parseLoop [] (stringsSplit data '\n')

/-! ## `GetFilesystemAttributes` -/

/-- The record `FilesystemAttrs`. -/
structure FilesystemAttrs where
  UUID : GoString
  Label : GoString
deriving DecidableEq, Repr

/-- The outcome of `exec.Command(name, args...).Output()`: the captured
standard output and the error. -/
abbrev ExecOutput := GoString → List GoString → GoString × Option GoError

/-- Embedding of `GetFilesystemAttributes`; `execOutput` is the child
process runner. -/
def GetFilesystemAttributes (execOutput : ExecOutput) (deviceFullPath : GoString) :
    Option FilesystemAttrs × Option GoError :=
  match execOutput (str "udevadm") [str "info", str "-q", str "property", deviceFullPath] with
  | (data, err) =>
    if err ≠ none then (none, err)
    else
      match parseUdevPropertyData data with
      | (properties, err) =>
        if err ≠ none then (none, err)
        else
          (some { UUID := mapIndex properties (str "ID_FS_UUID"),
                  Label := mapIndex properties (str "ID_FS_LABEL") }, none)

/-! ## `IsBlock` -/

/-- The constant `unix.S_IFMT` (octal 0170000). -/
def S_IFMT : Nat := 0xF000
/-- The constant `unix.S_IFBLK` (octal 0060000). -/
def S_IFBLK : Nat := 0x6000
/-- The constant `unix.S_IFREG`. -/
def S_IFREG : Nat := 0x8000
/-- The constant `unix.S_IFCHR`. -/
def S_IFCHR : Nat := 0x2000
/-- The constant `unix.S_IFDIR`. -/
def S_IFDIR : Nat := 0x4000
/-- The constant `unix.S_IFLNK`. -/
def S_IFLNK : Nat := 0xA000
/-- The constant `unix.S_IFSOCK`. -/
def S_IFSOCK : Nat := 0xC000
/-- The constant `unix.S_IFIFO`. -/
def S_IFIFO : Nat := 0x1000

/-- The field of `unix.Stat_t` the code reads (`Mode`, a `uint32`). -/
structure Stat_t where
  Mode : Nat
deriving DecidableEq, Repr

/-- The call `unix.Stat(path, &st)`: the filled structure and the error. -/
abbrev StatCall := GoString → Stat_t × Option GoError

/-- Embedding of `IsBlock`. -/
def IsBlock (stat : StatCall) (fullPath : GoString) : Bool × Option GoError :=
  match stat fullPath with
  | (st, err) =>
    if err ≠ none then (false, err)
    else (decide (st.Mode &&& S_IFMT = S_IFBLK), none)

/-- Errno `ENOENT`. -/
def ENOENT : Nat := 2

/-- The path names a symbolic link: `lstat`, the metadata call that does
not follow links, succeeds on it and reports the type bits `S_IFLNK`.
`lstat` is a parameter like `stat`; nothing is assumed about how the kernel
relates the two. -/
def EntryIsSymlink (lstat : StatCall) (path : GoString) : Prop :=
  (lstat path).2 = none ∧ (lstat path).1.Mode &&& S_IFMT = S_IFLNK

instance (lstat : StatCall) (path : GoString) : Decidable (EntryIsSymlink lstat path) := by
  unfold EntryIsSymlink; infer_instance

/-! ## `GetBlockCapacityByte` -/

/-- The constant `os.O_RDONLY`. -/
def O_RDONLY : Nat := 0
/-- The constant `unix.BLKGETSIZE64`. -/
def BLKGETSIZE64 : Nat := 0x80081272

/-- The system-call events of one execution, in order. -/
inductive Event where
  | openFile (path : GoString) (flag : Nat) (perm : Nat)
  | ioctl (fd : Nat) (req : Nat)
  | close (fd : Nat)
deriving DecidableEq, Repr

/-- The kernel as `GetBlockCapacityByte` sees it: `openFile` gives the file
descriptor and the error of `os.OpenFile`; `ioctl fd req` gives the 64-bit
word found in the output parameter after the call and the errno of
`unix.Syscall` (0 for success). -/
structure Kernel where
  openFile : GoString → Nat → Nat → Nat × Option GoError
  ioctl : Nat → Nat → Nat × Nat

/-- The value of an `int64` variable whose eight bytes hold the word `w`. -/
def int64OfBits (w : Nat) : Int :=
  if w % 2 ^ 64 < 2 ^ 63 then ((w % 2 ^ 64 : Nat) : Int)
  else ((w % 2 ^ 64 : Nat) : Int) - 2 ^ 64

/-- Embedding of `GetBlockCapacityByte`: the returned pair and the trace of
system-call events. The deferred `file.Close()` runs after the return
values are set, on every path that follows the `defer` statement. -/
def GetBlockCapacityByte (k : Kernel) (fullPath : GoString) :
    (Int × Option GoError) × List Event :=
  match k.openFile fullPath O_RDONLY 0 with
  | (file, err) =>
    if err ≠ none then ((0, err), [Event.openFile fullPath O_RDONLY 0])
    else
      let deferred := [Event.close file]
      match k.ioctl file BLKGETSIZE64 with
      | (word, errno) =>
        let size := int64OfBits word
        if errno ≠ 0 then
          ((0, some (GoError.errno errno)),
            [Event.openFile fullPath O_RDONLY 0, Event.ioctl file BLKGETSIZE64] ++ deferred)
        else
          ((size, err),
            [Event.openFile fullPath O_RDONLY 0, Event.ioctl file BLKGETSIZE64] ++ deferred)

/-! ## Specification vocabulary -/

/-- A maximal segment of `data` between occurrences of `sep`: it contains
no `sep`, it starts at the beginning of `data` or right after a `sep`, and
it ends at the end of `data` or right before a `sep`. -/
def IsSegment (sep : Char) (data l : GoString) : Prop :=
  sep ∉ l ∧ ∃ pre post, data = pre ++ l ++ post ∧
    (pre = [] ∨ ∃ p, pre = p ++ [sep]) ∧ (post = [] ∨ ∃ q, post = sep :: q)

/-- A line of `data`: a maximal segment between newline characters. -/
def IsLine (data l : GoString) : Prop := IsSegment '\n' data l

/-- A malformed line: non-empty, with a number of `=` other than one. -/
def Malformed (l : GoString) : Prop := l ≠ [] ∧ l.count '=' ≠ 1

instance (l : GoString) : Decidable (Malformed l) := by
  unfold Malformed; infer_instance

/-- The line `key=value`. -/
def kvLine (key value : GoString) : GoString := key ++ '=' :: value

/-- In the list `lines`, the last line whose text before `=` is `key` is
`key=value`. -/
def LastBinding (lines : List GoString) (key value : GoString) : Prop :=
  ∃ before after, lines = before ++ kvLine key value :: after ∧
    ∀ value', kvLine key value' ∉ after

/-- The map `a` overridden by the map `b`, key by key. -/
def overrideGet (a b : GoMap) (k : GoString) : Option GoString :=
  match b.get k with
  | some v => some v
  | none => a.get k

/-- Whether an event is a `close`. -/
def Event.isClose : Event → Bool
  | Event.close _ => true
  | _ => false

/-- Whether an event is an `ioctl`. -/
def Event.isIoctl : Event → Bool
  | Event.ioctl _ _ => true
  | _ => false

/-! ## Concrete environments used in the instances -/

/-- A child process runner that always yields the given output and error. -/
def mockUdevadm (out : GoString) (err : Option GoError) : ExecOutput :=
  fun _ _ => (out, err)

/-- A kernel whose `open` and `ioctl` always yield the given outcomes. -/
def mockKernel (openResult : Nat × Option GoError) (ioctlResult : Nat × Nat) : Kernel :=
  { openFile := fun _ _ _ => openResult, ioctl := fun _ _ => ioctlResult }

/-- A `stat` call that always yields the given mode and error. -/
def mockStat (mode : Nat) (err : Option GoError) : StatCall :=
  fun _ => ({ Mode := mode }, err)

/-- The outcomes of `lstat` on a host where `/dev/disk/by-id/disk0` is a
symbolic link (mode `lrwxrwxrwx`) to the block special file `/dev/sdb`
(mode `brw-rw----`), and no other path exists. -/
def byIdLstat : StatCall := fun p =>
  if p = str "/dev/disk/by-id/disk0" then ({ Mode := S_IFLNK ||| 0x1FF }, none)
  else if p = str "/dev/sdb" then ({ Mode := S_IFBLK ||| 0x1B0 }, none)
  else ({ Mode := 0 }, some (GoError.errno ENOENT))

/-- The outcomes of `stat` on the same host: on the link it reports the
block special file the link leads to. -/
def byIdStat : StatCall := fun p =>
  if p = str "/dev/disk/by-id/disk0" then ({ Mode := S_IFBLK ||| 0x1B0 }, none)
  else if p = str "/dev/sdb" then ({ Mode := S_IFBLK ||| 0x1B0 }, none)
  else ({ Mode := 0 }, some (GoError.errno ENOENT))

/-! ## The embedding on concrete inputs -/

theorem stringsSplit_empty : stringsSplit (str "") '\n' = [[]] := by decide

theorem stringsSplit_trailing_newline :
    stringsSplit (str "a\n") '\n' = [str "a", str ""] := by decide

theorem stringsSplit_three_fields :
    stringsSplit (str "B=2=3") '=' = [str "B", str "2", str "3"] := by decide

theorem parseUdevPropertyData_stops_at_malformed_line :
    parseUdevPropertyData (str "A=1\nB=2=3\nC=4\n") = (none, some parseError) := by decide

theorem parseUdevPropertyData_keeps_spaces_and_quotes :
    parseUdevPropertyData (str " K = \"v\" \n") = (some [(str " K ", str " \"v\" ")], none) := by
  decide

/-! ## Lemmas on `stringsSplit` -/

theorem stringsSplit_ne_nil (s : GoString) (sep : Char) : stringsSplit s sep ≠ [] := by
  induction s with
  | nil => simp [stringsSplit]
  | cons c cs ih =>
    unfold stringsSplit
    split
    · simp
    · split <;> simp

theorem stringsSplit_cons_sep (cs : GoString) (sep : Char) :
    stringsSplit (sep :: cs) sep = [] :: stringsSplit cs sep := by
  rw [stringsSplit]; simp

theorem stringsSplit_cons_ne (c : Char) (cs : GoString) (sep : Char) (h : c ≠ sep)
    (hd : GoString) (tl : List GoString) (hs : stringsSplit cs sep = hd :: tl) :
    stringsSplit (c :: cs) sep = (c :: hd) :: tl := by
  rw [stringsSplit]; simp [h, hs]

/-- A string without the separator is a single field. -/
theorem stringsSplit_of_not_mem (s : GoString) (sep : Char) (h : sep ∉ s) :
    stringsSplit s sep = [s] := by
  induction s with
  | nil => simp [stringsSplit]
  | cons c cs ih =>
    have hc : c ≠ sep := fun e => h (by simp [e])
    have hcs : sep ∉ cs := fun e => h (by simp [e])
    exact stringsSplit_cons_ne c cs sep hc cs [] (ih hcs)

/-- Splitting distributes over a concatenation through the separator. -/
theorem stringsSplit_append_sep (a b : GoString) (sep : Char) :
    stringsSplit (a ++ sep :: b) sep = stringsSplit a sep ++ stringsSplit b sep := by
  induction a with
  | nil => simp [stringsSplit_cons_sep, stringsSplit]
  | cons c cs ih =>
    by_cases hc : c = sep
    · subst hc
      simp [stringsSplit_cons_sep, ih]
    · obtain ⟨hd, tl, hs⟩ := List.exists_cons_of_ne_nil (stringsSplit_ne_nil cs sep)
      have h1 : stringsSplit (cs ++ sep :: b) sep = hd :: (tl ++ stringsSplit b sep) := by
        rw [ih, hs]; rfl
      rw [List.cons_append, stringsSplit_cons_ne c _ sep hc _ _ h1,
        stringsSplit_cons_ne c cs sep hc hd tl hs]
      rfl

/-- No field contains the separator. -/
theorem not_mem_of_mem_stringsSplit (s : GoString) (sep : Char) :
    ∀ l ∈ stringsSplit s sep, sep ∉ l := by
  induction s with
  | nil => simp [stringsSplit]
  | cons c cs ih =>
    by_cases hc : c = sep
    · subst hc
      intro l hl
      rw [stringsSplit_cons_sep] at hl
      rcases List.mem_cons.1 hl with h | h
      · simp [h]
      · exact ih l h
    · obtain ⟨hd, tl, hs⟩ := List.exists_cons_of_ne_nil (stringsSplit_ne_nil cs sep)
      intro l hl
      rw [stringsSplit_cons_ne c cs sep hc hd tl hs] at hl
      rcases List.mem_cons.1 hl with h | h
      · subst h
        have := ih hd (by simp [hs])
        simp only [List.mem_cons, not_or]
        exact ⟨fun e => hc e.symm, this⟩
      · exact ih l (by simp [hs, h])

/-- The number of fields is one more than the number of separators. -/
theorem length_stringsSplit (s : GoString) (sep : Char) :
    (stringsSplit s sep).length = s.count sep + 1 := by
  induction s with
  | nil => simp [stringsSplit]
  | cons c cs ih =>
    by_cases hc : c = sep
    · subst hc
      simp [stringsSplit_cons_sep, ih]
    · obtain ⟨hd, tl, hs⟩ := List.exists_cons_of_ne_nil (stringsSplit_ne_nil cs sep)
      have hcnt : List.count sep (c :: cs) = List.count sep cs := by
        simp [List.count_cons, hc]
      rw [stringsSplit_cons_ne c cs sep hc hd tl hs, hcnt, ← ih, hs]
      rfl

/-- The first field is a prefix ending at the first separator, and every
later field starts right after a separator. -/
theorem stringsSplit_structure (s : GoString) (sep : Char) :
    ∃ hd tl, stringsSplit s sep = hd :: tl ∧
      (∃ post, s = hd ++ post ∧ (post = [] ∨ ∃ q, post = sep :: q)) ∧
      ∀ l ∈ tl, ∃ pre post, s = pre ++ l ++ post ∧
        (∃ p, pre = p ++ [sep]) ∧ (post = [] ∨ ∃ q, post = sep :: q) := by
  induction s with
  | nil => exact ⟨[], [], by simp [stringsSplit], ⟨[], by simp⟩, by simp⟩
  | cons c cs ih =>
    obtain ⟨hd, tl, hs, ⟨post, hpost, hb⟩, htl⟩ := ih
    by_cases hc : c = sep
    · subst hc
      refine ⟨[], hd :: tl, by rw [stringsSplit_cons_sep, hs], ⟨c :: cs, by simp, Or.inr ⟨cs, rfl⟩⟩, ?_⟩
      intro l hl
      rcases List.mem_cons.1 hl with h | h
      · subst h
        exact ⟨[c], post, by simp [hpost], ⟨[], rfl⟩, hb⟩
      · obtain ⟨pre, post', e, ⟨p, hp⟩, hb'⟩ := htl l h
        exact ⟨c :: pre, post', by simp [e], ⟨c :: p, by simp [hp]⟩, hb'⟩
    · refine ⟨c :: hd, tl, stringsSplit_cons_ne c cs sep hc hd tl hs,
        ⟨post, by simp [hpost], hb⟩, ?_⟩
      intro l hl
      obtain ⟨pre, post', e, ⟨p, hp⟩, hb'⟩ := htl l hl
      exact ⟨c :: pre, post', by simp [e], ⟨c :: p, by simp [hp]⟩, hb'⟩

/-- The fields of `strings.Split` are exactly the maximal segments between
separators. -/
theorem mem_stringsSplit_iff (s : GoString) (sep : Char) (l : GoString) :
    l ∈ stringsSplit s sep ↔ IsSegment sep s l := by
  constructor
  · intro hl
    refine ⟨not_mem_of_mem_stringsSplit s sep l hl, ?_⟩
    obtain ⟨hd, tl, hs, ⟨post, hpost, hb⟩, htl⟩ := stringsSplit_structure s sep
    rw [hs] at hl
    rcases List.mem_cons.1 hl with h | h
    · subst h
      exact ⟨[], post, by simpa using hpost, Or.inl rfl, hb⟩
    · obtain ⟨pre, post', e, hp, hb'⟩ := htl l h
      exact ⟨pre, post', e, Or.inr hp, hb'⟩
  · rintro ⟨hl, pre, post, e, hpre, hpost⟩
    have hmid : l ∈ stringsSplit (l ++ post) sep := by
      rcases hpost with h | ⟨q, h⟩
      · subst h
        simp [stringsSplit_of_not_mem l sep hl]
      · subst h
        rw [stringsSplit_append_sep, stringsSplit_of_not_mem l sep hl]
        simp
    rcases hpre with h | ⟨p, h⟩
    · subst h
      simpa [e] using hmid
    · subst h
      have e' : s = p ++ sep :: (l ++ post) := by simp [e]
      rw [e', stringsSplit_append_sep]
      exact List.mem_append_right _ hmid

/-- A string splits into exactly two fields iff it is `key ++ sep ++ value`
with no separator in `key` or `value`. -/
theorem stringsSplit_eq_pair_iff (l : GoString) (sep : Char) (key value : GoString) :
    stringsSplit l sep = [key, value] ↔ l = key ++ sep :: value ∧ sep ∉ key ∧ sep ∉ value := by
  constructor
  · intro h
    have hk := not_mem_of_mem_stringsSplit l sep key (by simp [h])
    have hv := not_mem_of_mem_stringsSplit l sep value (by simp [h])
    refine ⟨?_, hk, hv⟩
    obtain ⟨hd, tl, hs, ⟨post, hpost, hb⟩, htl⟩ := stringsSplit_structure l sep
    rw [h] at hs
    injection hs with h1 h2
    subst h1
    rcases hb with hb | ⟨q, hb⟩
    · subst hb
      rw [List.append_nil] at hpost
      rw [hpost, stringsSplit_of_not_mem key sep hk] at h
      simp at h
    · subst hb
      rw [hpost, stringsSplit_append_sep, stringsSplit_of_not_mem key sep hk] at h
      simp only [List.singleton_append, List.cons.injEq, true_and] at h
      have hq : sep ∉ q := by
        intro hmem
        have := length_stringsSplit q sep
        rw [h] at this
        have hpos : 0 < List.count sep q := List.count_pos_iff.2 hmem
        simp at this
        omega
      rw [stringsSplit_of_not_mem q sep hq] at h
      simp at h
      rw [hpost, h]
  · rintro ⟨e, hk, hv⟩
    rw [e, stringsSplit_append_sep, stringsSplit_of_not_mem key sep hk,
      stringsSplit_of_not_mem value sep hv]
    rfl

/-- A line has exactly two fields iff it has exactly one separator. -/
theorem stringsSplit_pair_iff_count (l : GoString) (sep : Char) :
    (∃ key value, stringsSplit l sep = [key, value]) ↔ l.count sep = 1 := by
  constructor
  · rintro ⟨key, value, h⟩
    have := length_stringsSplit l sep
    rw [h] at this
    simp at this
    omega
  · intro h
    have hlen := length_stringsSplit l sep
    rw [h] at hlen
    match hs : stringsSplit l sep, hlen with
    | [key, value], _ => exact ⟨key, value, rfl⟩

/-- If `l` splits into `[key0, value0]`, the only way to read it as a
`key=value` line is with that key and that value. -/
theorem kvLine_unique (l key0 value0 key value : GoString)
    (hs : stringsSplit l '=' = [key0, value0]) (hl : l = kvLine key value) :
    key = key0 ∧ value = value0 := by
  have hcount := (stringsSplit_pair_iff_count l '=').1 ⟨key0, value0, hs⟩
  rw [hl, kvLine, List.count_append, List.count_cons_self] at hcount
  have hk : '=' ∉ key := by
    intro hmem
    have := List.count_pos_iff.2 hmem
    omega
  have hv : '=' ∉ value := by
    intro hmem
    have := List.count_pos_iff.2 hmem
    omega
  have h2 := (stringsSplit_eq_pair_iff (kvLine key value) '=' key value).2 ⟨rfl, hk, hv⟩
  rw [← hl, hs] at h2
  simp only [List.cons.injEq, and_true] at h2
  exact ⟨h2.1.symm, h2.2.symm⟩

/-! ## Lemmas on maps -/

theorem GoMap.get_filter_ne (m : GoMap) (k k' : GoString) (h : k' ≠ k) :
    GoMap.get (m.filter (fun p => !decide (p.1 = k))) k' = GoMap.get m k' := by
  induction m with
  | nil => rfl
  | cons p rest ih =>
    obtain ⟨k0, v0⟩ := p
    by_cases h0 : k0 = k
    · subst h0
      simp [List.filter, GoMap.get, h, ih]
    · simp [List.filter, GoMap.get, h0, ih]

/-- Reading after a write. -/
theorem GoMap.get_set (m : GoMap) (k v k' : GoString) :
    (m.set k v).get k' = if k' = k then some v else m.get k' := by
  by_cases h : k' = k
  · simp [GoMap.set, GoMap.get, h]
  · simp [GoMap.set, GoMap.get, h, GoMap.get_filter_ne m k k' h]

/-! ## Lemmas on the parsing loop -/

theorem parseLoop_nil (res : GoMap) : parseLoop res [] = (some res, none) := rfl

theorem parseLoop_cons_empty (res : GoMap) (ls : List GoString) :
    parseLoop res ([] :: ls) = parseLoop res ls := by
  simp [parseLoop]

theorem parseLoop_cons_pair (res : GoMap) (l : GoString) (ls : List GoString)
    (key value : GoString) (hl : l ≠ []) (hs : stringsSplit l '=' = [key, value]) :
    parseLoop res (l :: ls) = parseLoop (res.set key value) ls := by
  have hlen : l.length ≠ 0 := by simpa using hl
  rw [parseLoop]
  simp only [hlen, if_false]
  rw [hs]

theorem parseLoop_cons_malformed (res : GoMap) (l : GoString) (ls : List GoString)
    (h : Malformed l) : parseLoop res (l :: ls) = (none, some parseError) := by
  have hlen : l.length ≠ 0 := by simpa using h.1
  rw [parseLoop]
  simp only [hlen, if_false]
  split
  · next key value hs =>
    exact absurd ((stringsSplit_pair_iff_count l '=').1 ⟨key, value, hs⟩) h.2
  · rfl

/-- Every line is empty, or malformed, or a `key=value` line. -/
theorem line_cases (l : GoString) :
    l = [] ∨ Malformed l ∨ (l ≠ [] ∧ ∃ key value, stringsSplit l '=' = [key, value]) := by
  by_cases hl : l = []
  · exact Or.inl hl
  · by_cases hc : l.count '=' = 1
    · exact Or.inr (Or.inr ⟨hl, (stringsSplit_pair_iff_count l '=').2 hc⟩)
    · exact Or.inr (Or.inl ⟨hl, hc⟩)

/-- The loop fails exactly when some line is malformed, whatever the map it
starts from. -/
theorem parseLoop_fails_iff (lines : List GoString) :
    ∀ res, parseLoop res lines = (none, some parseError) ↔ ∃ l ∈ lines, Malformed l := by
  induction lines with
  | nil => intro res; simp [parseLoop]
  | cons l ls ih =>
    intro res
    rcases line_cases l with h | h | ⟨hne, key, value, hs⟩
    · subst h
      rw [parseLoop_cons_empty, ih]
      simp [Malformed]
    · rw [parseLoop_cons_malformed res l ls h]
      simp only [true_iff]
      exact ⟨l, by simp, h⟩
    · rw [parseLoop_cons_pair res l ls key value hne hs, ih]
      have hnot : ¬ Malformed l := fun hm =>
        hm.2 ((stringsSplit_pair_iff_count l '=').1 ⟨key, value, hs⟩)
      simp [hnot]

/-- The loop either fails with the parse error and a nil map, or succeeds
with a non-nil map. -/
theorem parseLoop_shape (lines : List GoString) :
    ∀ res, parseLoop res lines = (none, some parseError) ∨
      ∃ m, parseLoop res lines = (some m, none) := by
  induction lines with
  | nil => intro res; exact Or.inr ⟨res, rfl⟩
  | cons l ls ih =>
    intro res
    rcases line_cases l with h | h | ⟨hne, key, value, hs⟩
    · subst h
      rw [parseLoop_cons_empty]
      exact ih res
    · exact Or.inl (parseLoop_cons_malformed res l ls h)
    · rw [parseLoop_cons_pair res l ls key value hne hs]
      exact ih _

/-- The bindings of the map the loop returns: the last `key=value` line
for the key, or the initial binding when no line has the key. -/
theorem parseLoop_bindings (lines : List GoString) :
    ∀ res m, parseLoop res lines = (some m, none) → ∀ key value,
      (m.get key = some value ↔
        LastBinding lines key value ∨
          ((∀ value', kvLine key value' ∉ lines) ∧ res.get key = some value)) := by
  induction lines with
  | nil =>
    intro res m h key value
    simp only [parseLoop, Prod.mk.injEq, Option.some.injEq, and_true] at h
    subst h
    simp [LastBinding]
  | cons l ls ih =>
    intro res m h key value
    rcases line_cases l with hl | hl | ⟨hne, key0, value0, hs⟩
    · subst hl
      rw [parseLoop_cons_empty] at h
      rw [ih res m h key value]
      have hnokv : ∀ value', kvLine key value' ≠ [] := by intro v; simp [kvLine]
      constructor
      · rintro (⟨before, after, e, hlast⟩ | ⟨hno, hres⟩)
        · exact Or.inl ⟨[] :: before, after, by simp [e], hlast⟩
        · refine Or.inr ⟨?_, hres⟩
          intro v hv
          rcases List.mem_cons.1 hv with h1 | h1
          · exact hnokv v h1
          · exact hno v h1
      · rintro (⟨before, after, e, hlast⟩ | ⟨hno, hres⟩)
        · cases before with
          | nil =>
            simp only [List.nil_append, List.cons.injEq] at e
            exact absurd e.1.symm (hnokv value)
          | cons b bs =>
            simp only [List.cons_append, List.cons.injEq] at e
            exact Or.inl ⟨bs, after, e.2, hlast⟩
        · exact Or.inr ⟨fun v hv => hno v (List.mem_cons_of_mem _ hv), hres⟩
    · rw [parseLoop_cons_malformed res l ls hl] at h
      simp at h
    · rw [parseLoop_cons_pair res l ls key0 value0 hne hs] at h
      rw [ih _ m h key value, GoMap.get_set]
      have hl0 : l = kvLine key0 value0 := ((stringsSplit_eq_pair_iff l '=' key0 value0).1 hs).1
      constructor
      · rintro (⟨before, after, e, hlast⟩ | ⟨hno, hres⟩)
        · exact Or.inl ⟨l :: before, after, by simp [e], hlast⟩
        · by_cases hk : key = key0
          · subst hk
            simp only [if_true, Option.some.injEq] at hres
            subst hres
            exact Or.inl ⟨[], ls, by simp [hl0], hno⟩
          · simp only [hk, if_false] at hres
            refine Or.inr ⟨?_, hres⟩
            intro v hv
            rcases List.mem_cons.1 hv with h1 | h1
            · exact hk (kvLine_unique l key0 value0 key v hs h1.symm).1
            · exact hno v h1
      · rintro (⟨before, after, e, hlast⟩ | ⟨hno, hres⟩)
        · cases before with
          | nil =>
            simp only [List.nil_append, List.cons.injEq] at e
            obtain ⟨hk, hv⟩ := kvLine_unique l key0 value0 key value hs e.1
            subst hk; subst hv
            right
            refine ⟨?_, by simp⟩
            rw [e.2]
            exact hlast
          | cons b bs =>
            simp only [List.cons_append, List.cons.injEq] at e
            exact Or.inl ⟨bs, after, e.2, hlast⟩
        · have hk : key ≠ key0 := by
            intro hk
            subst hk
            exact hno value0 (by simp [hl0])
          exact Or.inr ⟨fun v hv => hno v (List.mem_cons_of_mem _ hv), by simp [hk, hres]⟩

/-- Running the loop over `l1 ++ l2` is running it over `l1`, then over
`l2` from the map reached. -/
theorem parseLoop_append_ok (l1 l2 : List GoString) :
    ∀ res m, parseLoop res l1 = (some m, none) →
      parseLoop res (l1 ++ l2) = parseLoop m l2 := by
  induction l1 with
  | nil =>
    intro res m h
    simp only [parseLoop, Prod.mk.injEq, Option.some.injEq, and_true] at h
    subst h
    rfl
  | cons l ls ih =>
    intro res m h
    rcases line_cases l with hl | hl | ⟨hne, key, value, hs⟩
    · subst hl
      rw [parseLoop_cons_empty] at h
      rw [List.cons_append, parseLoop_cons_empty]
      exact ih res m h
    · rw [parseLoop_cons_malformed res l ls hl] at h
      simp at h
    · rw [parseLoop_cons_pair res l ls key value hne hs] at h
      rw [List.cons_append, parseLoop_cons_pair res l _ key value hne hs]
      exact ih _ m h

/-- Started from a map `res`, the loop returns `res` overridden by what it
returns when started from the empty map. -/
theorem parseLoop_override (lines : List GoString) :
    ∀ res m, parseLoop res lines = (some m, none) →
      ∃ mb, parseLoop [] lines = (some mb, none) ∧
        ∀ key, m.get key = overrideGet res mb key := by
  induction lines with
  | nil =>
    intro res m h
    simp only [parseLoop, Prod.mk.injEq, Option.some.injEq, and_true] at h
    subst h
    exact ⟨[], rfl, fun key => by simp [overrideGet, GoMap.get]⟩
  | cons l ls ih =>
    intro res m h
    rcases line_cases l with hl | hl | ⟨hne, key0, value0, hs⟩
    · subst hl
      rw [parseLoop_cons_empty] at h
      rw [parseLoop_cons_empty]
      exact ih res m h
    · rw [parseLoop_cons_malformed res l ls hl] at h
      simp at h
    · rw [parseLoop_cons_pair res l ls key0 value0 hne hs] at h
      rw [parseLoop_cons_pair [] l ls key0 value0 hne hs]
      obtain ⟨mb0, h0, hget0⟩ := ih _ m h
      rcases parseLoop_shape ls (GoMap.set [] key0 value0) with hbad | ⟨mb, hmb⟩
      · have := (parseLoop_fails_iff ls _).1 hbad
        have h0bad := (parseLoop_fails_iff ls []).2 this
        rw [h0] at h0bad
        simp at h0bad
      · obtain ⟨mb0', h0', hget1⟩ := ih _ mb hmb
        rw [h0] at h0'
        simp only [Prod.mk.injEq, Option.some.injEq, and_true] at h0'
        subst h0'
        refine ⟨mb, hmb, ?_⟩
        intro key
        rw [hget0 key, overrideGet, overrideGet, hget1 key, overrideGet, GoMap.get_set,
          GoMap.get_set]
        cases hk : mb0.get key with
        | some v => rfl
        | none =>
          by_cases hkey : key = key0
          · simp [hkey]
          · simp [hkey, GoMap.get]

/-- A key that occurs on some line has a last line. -/
theorem exists_lastBinding (lines : List GoString) (key : GoString) :
    (∃ value, kvLine key value ∈ lines) → ∃ value, LastBinding lines key value := by
  induction lines with
  | nil => simp
  | cons l ls ih =>
    rintro ⟨value, hv⟩
    by_cases hlater : ∃ value', kvLine key value' ∈ ls
    · obtain ⟨v, before, after, e, hlast⟩ := ih hlater
      exact ⟨v, l :: before, after, by simp [e], hlast⟩
    · rcases List.mem_cons.1 hv with h | h
      · exact ⟨value, [], ls, by simp [h], fun v hv' => hlater ⟨v, hv'⟩⟩
      · exact absurd ⟨value, h⟩ hlater

theorem mem_of_lastBinding (lines : List GoString) (key value : GoString)
    (h : LastBinding lines key value) : kvLine key value ∈ lines := by
  obtain ⟨before, after, e, _⟩ := h
  simp [e]

/-! ## Claims C1, C2, C10: `parseUdevPropertyData` -/

/-- C1. `parseUdevPropertyData` returns an error if and only if some
non-empty line of the input (a maximal segment between newline characters)
contains a number of `=` characters different from one; when it fails, the
returned map is nil and the error is the parse error, whatever lines came
before the malformed one. Instance: `"A=1\nB=2=3\n"` fails. -/
theorem parseUdevPropertyData_fails_iff_malformed_line :
    (∀ data : GoString,
      ((parseUdevPropertyData data).2 ≠ none ↔
        ∃ l, IsLine data l ∧ l ≠ [] ∧ l.count '=' ≠ 1) ∧
      ((parseUdevPropertyData data).2 ≠ none →
        (parseUdevPropertyData data).1 = none ∧
          (parseUdevPropertyData data).2 = some parseError)) ∧
    parseUdevPropertyData (str "A=1\nB=2=3\n") = (none, some parseError) := by
  refine ⟨fun data => ?_, by decide⟩
  have hiff := parseLoop_fails_iff (stringsSplit data '\n') []
  have hmal : (∃ l ∈ stringsSplit data '\n', Malformed l) ↔
      ∃ l, IsLine data l ∧ l ≠ [] ∧ l.count '=' ≠ 1 := by
    constructor
    · rintro ⟨l, hl, hm⟩
      exact ⟨l, (mem_stringsSplit_iff data '\n' l).1 hl, hm⟩
    · rintro ⟨l, hl, hm⟩
      exact ⟨l, (mem_stringsSplit_iff data '\n' l).2 hl, hm⟩
  rcases parseLoop_shape (stringsSplit data '\n') [] with hbad | ⟨m, hok⟩
  · have hbad' : parseUdevPropertyData data = (none, some parseError) := hbad
    rw [hbad']
    refine ⟨?_, fun _ => ⟨rfl, rfl⟩⟩
    simp only [ne_eq, not_false_eq_true, true_iff, reduceCtorEq]
    exact hmal.1 (hiff.1 hbad)
  · have hok' : parseUdevPropertyData data = (some m, none) := hok
    rw [hok']
    refine ⟨?_, fun h => absurd rfl h⟩
    simp only [ne_eq, not_true_eq_false, false_iff]
    intro hex
    have := hiff.2 (hmal.2 hex)
    rw [hok] at this
    simp at this

/-- C2. When every non-empty line of the input contains exactly one `=`,
`parseUdevPropertyData` succeeds, and the map it returns binds a key iff
some line has that key as its text before the `=`, to the text after the
`=` on the last such line, verbatim. Instances:
`"ID_FS_UUID=abc-123\nID_FS_LABEL=data\n"` gives the map with the two
bindings `ID_FS_UUID: "abc-123"` and `ID_FS_LABEL: "data"`; `"A=1\nA=2\n"`
gives the map with the single binding `A: "2"`; `""` gives the empty
(non-nil) map. -/
theorem parseUdevPropertyData_bindings :
    (∀ data : GoString,
      (∀ l ∈ stringsSplit data '\n', l ≠ [] → l.count '=' = 1) →
      ∃ m, parseUdevPropertyData data = (some m, none) ∧
        (∀ key, (m.get key).isSome ↔ ∃ value, kvLine key value ∈ stringsSplit data '\n') ∧
        (∀ key value, m.get key = some value ↔
          LastBinding (stringsSplit data '\n') key value)) ∧
    (∃ m, parseUdevPropertyData (str "ID_FS_UUID=abc-123\nID_FS_LABEL=data\n") = (some m, none) ∧
      ∀ key, m.get key =
        GoMap.get [(str "ID_FS_UUID", str "abc-123"), (str "ID_FS_LABEL", str "data")] key) ∧
    (∃ m, parseUdevPropertyData (str "A=1\nA=2\n") = (some m, none) ∧
      ∀ key, m.get key = GoMap.get [(str "A", str "2")] key) ∧
    parseUdevPropertyData (str "") = (some [], none) := by
  refine ⟨fun data h => ?_, ?_, ?_, by decide⟩
  · rcases parseLoop_shape (stringsSplit data '\n') [] with hbad | ⟨m, hok⟩
    · obtain ⟨l, hl, hne, hcount⟩ := (parseLoop_fails_iff _ []).1 hbad
      exact absurd (h l hl hne) hcount
    · have hb := parseLoop_bindings (stringsSplit data '\n') [] m hok
      have hval : ∀ key value, m.get key = some value ↔
          LastBinding (stringsSplit data '\n') key value := by
        intro key value
        rw [hb key value]
        simp [GoMap.get]
      refine ⟨m, hok, ?_, hval⟩
      intro key
      constructor
      · intro hsome
        obtain ⟨v, hv⟩ := Option.isSome_iff_exists.1 hsome
        exact ⟨v, mem_of_lastBinding _ _ _ ((hval key v).1 hv)⟩
      · intro hex
        obtain ⟨v, hv⟩ := exists_lastBinding _ key hex
        rw [(hval key v).2 hv]
        rfl
  · refine ⟨[(str "ID_FS_LABEL", str "data"), (str "ID_FS_UUID", str "abc-123")],
      by decide, ?_⟩
    intro key
    by_cases h1 : key = str "ID_FS_LABEL"
    · subst h1
      decide
    · by_cases h2 : key = str "ID_FS_UUID"
      · subst h2
        decide
      · simp [GoMap.get, h1, h2]
  · exact ⟨[(str "A", str "2")], by decide, fun _ => rfl⟩

/-- The input `"ID_FS_UUID=abc-123\nID_FS_LABEL=data\n"` meets the
assumption of C2, and the parse binds `ID_FS_UUID` to `"abc-123"`. -/
theorem parseUdevPropertyData_bindings_witness :
    (∀ l ∈ stringsSplit (str "ID_FS_UUID=abc-123\nID_FS_LABEL=data\n") '\n',
      l ≠ [] → l.count '=' = 1) ∧
    ∃ m, parseUdevPropertyData (str "ID_FS_UUID=abc-123\nID_FS_LABEL=data\n") = (some m, none) ∧
      m.get (str "ID_FS_UUID") = some (str "abc-123") :=
  ⟨by decide, by
    obtain ⟨m, hm, _, hval⟩ := parseUdevPropertyData_bindings.1
      (str "ID_FS_UUID=abc-123\nID_FS_LABEL=data\n") (by decide)
    refine ⟨m, hm, (hval _ _).2 ⟨[], [str "ID_FS_LABEL=data", str ""], by decide, ?_⟩⟩
    intro v hv
    simp only [List.mem_cons, List.mem_singleton, List.not_mem_nil, or_false] at hv
    rcases hv with hv | hv
    · have := congrArg (fun l => l.take 7) hv
      simp [kvLine, str] at this
    · simp [kvLine, str] at hv⟩

/-- C10. For all texts `a` and `b`, parsing `a ++ "\n" ++ b` fails iff
parsing `a` fails or parsing `b` fails; and when both succeed, the result
is the map of `a` overridden by the map of `b`: a key bound by `b` has the
value of `b`, any other key has its value in `a`, if it has one. -/
theorem parseUdevPropertyData_append_newline (a b : GoString) :
    ((parseUdevPropertyData (a ++ str "\n" ++ b)).2 ≠ none ↔
      (parseUdevPropertyData a).2 ≠ none ∨ (parseUdevPropertyData b).2 ≠ none) ∧
    (∀ ma mb, parseUdevPropertyData a = (some ma, none) →
      parseUdevPropertyData b = (some mb, none) →
      ∃ m, parseUdevPropertyData (a ++ str "\n" ++ b) = (some m, none) ∧
        ∀ key, m.get key = overrideGet ma mb key) := by
  have hsplit : stringsSplit (a ++ str "\n" ++ b) '\n' =
      stringsSplit a '\n' ++ stringsSplit b '\n' := by
    have : a ++ str "\n" ++ b = a ++ '\n' :: b := by simp [str]
    rw [this, stringsSplit_append_sep]
  have hfail : ∀ data : GoString, (parseUdevPropertyData data).2 ≠ none ↔
      ∃ l ∈ stringsSplit data '\n', Malformed l := by
    intro data
    rw [← parseLoop_fails_iff (stringsSplit data '\n') []]
    rcases parseLoop_shape (stringsSplit data '\n') [] with hbad | ⟨m, hok⟩
    · simp [parseUdevPropertyData, hbad]
    · simp [parseUdevPropertyData, hok]
  constructor
  · rw [hfail, hfail, hfail, hsplit]
    simp only [List.mem_append]
    constructor
    · rintro ⟨l, hl | hl, hm⟩
      · exact Or.inl ⟨l, hl, hm⟩
      · exact Or.inr ⟨l, hl, hm⟩
    · rintro (⟨l, hl, hm⟩ | ⟨l, hl, hm⟩)
      · exact ⟨l, Or.inl hl, hm⟩
      · exact ⟨l, Or.inr hl, hm⟩
  · intro ma mb ha hb
    have hrun : parseUdevPropertyData (a ++ str "\n" ++ b) =
        parseLoop ma (stringsSplit b '\n') := by
      unfold parseUdevPropertyData
      rw [hsplit]
      exact parseLoop_append_ok _ _ [] ma ha
    rcases parseLoop_shape (stringsSplit b '\n') ma with hbad | ⟨m, hok⟩
    · have h1 := (parseLoop_fails_iff _ []).2 ((parseLoop_fails_iff _ ma).1 hbad)
      have hb' : parseLoop [] (stringsSplit b '\n') = (some mb, none) := hb
      rw [hb'] at h1
      simp at h1
    · obtain ⟨mb', hmb', hget⟩ := parseLoop_override _ ma m hok
      have hb' : parseLoop [] (stringsSplit b '\n') = (some mb, none) := hb
      rw [hb'] at hmb'
      simp only [Prod.mk.injEq, Option.some.injEq, and_true] at hmb'
      subst hmb'
      exact ⟨m, by rw [hrun, hok], hget⟩

/-- Instance of C10: `"A=1\nB=2"` joined with `"A=3"` binds `A` to `"3"`,
`B` to `"2"`, and nothing else. -/
theorem parseUdevPropertyData_append_newline_witness :
    ∃ m, parseUdevPropertyData (str "A=1\nB=2" ++ str "\n" ++ str "A=3") = (some m, none) ∧
      m.get (str "A") = some (str "3") ∧ m.get (str "B") = some (str "2") ∧
      m.get (str "C") = none := by
  obtain ⟨m, hm, hget⟩ := (parseUdevPropertyData_append_newline (str "A=1\nB=2") (str "A=3")).2
    [(str "B", str "2"), (str "A", str "1")] [(str "A", str "3")] (by decide) (by decide)
  exact ⟨m, hm, by rw [hget]; decide, by rw [hget]; decide, by rw [hget]; decide⟩

/-! ## Claims C3, C4: `GetFilesystemAttributes` -/

/-- C3. When the tool ran successfully and its output parses without error,
`GetFilesystemAttributes` returns no error and a record whose `UUID` is the
value bound to `ID_FS_UUID` in the parsed map, or `""` when the key is
absent, and whose `Label` is the value bound to `ID_FS_LABEL`, or `""`;
two outputs whose maps agree on these two keys give the same record.
Instance: the output `"ID_FS_UUID=xyz\n"` gives `UUID = "xyz"`,
`Label = ""`. -/
theorem GetFilesystemAttributes_defaults :
    (∀ (execOutput : ExecOutput) (path data : GoString),
      execOutput (str "udevadm") [str "info", str "-q", str "property", path] = (data, none) →
      (parseUdevPropertyData data).2 = none →
      ∃ m, parseUdevPropertyData data = (some m, none) ∧
        GetFilesystemAttributes execOutput path =
          (some { UUID := (m.get (str "ID_FS_UUID")).getD (str ""),
                  Label := (m.get (str "ID_FS_LABEL")).getD (str "") }, none)) ∧
    (∀ (exec1 exec2 : ExecOutput) (path1 path2 data1 data2 : GoString) (m1 m2 : GoMap),
      exec1 (str "udevadm") [str "info", str "-q", str "property", path1] = (data1, none) →
      exec2 (str "udevadm") [str "info", str "-q", str "property", path2] = (data2, none) →
      parseUdevPropertyData data1 = (some m1, none) →
      parseUdevPropertyData data2 = (some m2, none) →
      m1.get (str "ID_FS_UUID") = m2.get (str "ID_FS_UUID") →
      m1.get (str "ID_FS_LABEL") = m2.get (str "ID_FS_LABEL") →
      GetFilesystemAttributes exec1 path1 = GetFilesystemAttributes exec2 path2) ∧
    (∀ (execOutput : ExecOutput) (path : GoString),
      execOutput (str "udevadm") [str "info", str "-q", str "property", path] =
        (str "ID_FS_UUID=xyz\n", none) →
      GetFilesystemAttributes execOutput path =
        (some { UUID := str "xyz", Label := str "" }, none)) := by
  have key : ∀ (execOutput : ExecOutput) (path data : GoString) (m : GoMap),
      execOutput (str "udevadm") [str "info", str "-q", str "property", path] = (data, none) →
      parseUdevPropertyData data = (some m, none) →
      GetFilesystemAttributes execOutput path =
        (some { UUID := (m.get (str "ID_FS_UUID")).getD (str ""),
                Label := (m.get (str "ID_FS_LABEL")).getD (str "") }, none) := by
    intro execOutput path data m hout hparse
    unfold GetFilesystemAttributes
    rw [hout]
    simp [hparse, mapIndex, str]
  refine ⟨?_, ?_, ?_⟩
  · intro execOutput path data hout herr
    rcases parseLoop_shape (stringsSplit data '\n') [] with hbad | ⟨m, hok⟩
    · have hbad' : parseUdevPropertyData data = (none, some parseError) := hbad
      rw [hbad'] at herr
      simp at herr
    · exact ⟨m, hok, key execOutput path data m hout hok⟩
  · intro exec1 exec2 path1 path2 data1 data2 m1 m2 h1 h2 hp1 hp2 hu hl
    rw [key exec1 path1 data1 m1 h1 hp1, key exec2 path2 data2 m2 h2 hp2, hu, hl]
  · intro execOutput path hout
    rw [key execOutput path _ [(str "ID_FS_UUID", str "xyz")] hout (by decide)]
    decide

/-- A successful run whose output is `"ID_FS_UUID=xyz\n"` meets the
assumptions of C3 and gives `UUID = "xyz"`, `Label = ""`. -/
theorem GetFilesystemAttributes_defaults_witness :
    GetFilesystemAttributes (mockUdevadm (str "ID_FS_UUID=xyz\n") none) (str "/dev/sdb") =
      (some { UUID := str "xyz", Label := str "" }, none) :=
  GetFilesystemAttributes_defaults.2.2 (mockUdevadm (str "ID_FS_UUID=xyz\n") none)
    (str "/dev/sdb") rfl

/-- C4. With the `udevadm` invocation yielding the captured bytes `data` and
the error `err`, `GetFilesystemAttributes` returns an error iff `err` is
non-nil or `parseUdevPropertyData` fails on `data`; whenever it returns an
error the record is nil; when the invocation failed the result is
`(nil, err)` whatever `data` is (the output plays no part); and when the
invocation succeeded and the parse failed the result is `(nil, e)` with `e`
the parse error. -/
theorem GetFilesystemAttributes_errors (execOutput : ExecOutput) (path data : GoString)
    (err : Option GoError)
    (hout : execOutput (str "udevadm") [str "info", str "-q", str "property", path] =
      (data, err)) :
    ((GetFilesystemAttributes execOutput path).2 ≠ none ↔
      err ≠ none ∨ (parseUdevPropertyData data).2 ≠ none) ∧
    ((GetFilesystemAttributes execOutput path).2 ≠ none →
      (GetFilesystemAttributes execOutput path).1 = none) ∧
    (err ≠ none → GetFilesystemAttributes execOutput path = (none, err)) ∧
    (err = none → (parseUdevPropertyData data).2 ≠ none →
      GetFilesystemAttributes execOutput path = (none, (parseUdevPropertyData data).2)) := by
  by_cases herr : err = none
  · subst herr
    rcases parseLoop_shape (stringsSplit data '\n') [] with hbad | ⟨m, hok⟩
    · have hbad' : parseUdevPropertyData data = (none, some parseError) := hbad
      unfold GetFilesystemAttributes
      rw [hout]
      simp [hbad']
    · have hok' : parseUdevPropertyData data = (some m, none) := hok
      unfold GetFilesystemAttributes
      rw [hout]
      simp [hok']
  · unfold GetFilesystemAttributes
    rw [hout]
    simp [herr]

/-- Instances of C4: a failed invocation with malformed partial output
returns the invocation error; a successful invocation with malformed
output returns the parse error; the end-to-end example of the
specification succeeds. -/
theorem GetFilesystemAttributes_errors_witness :
    GetFilesystemAttributes (mockUdevadm (str "B=2=3") (some (GoError.osError "exit status 1")))
        (str "/dev/sdb") = (none, some (GoError.osError "exit status 1")) ∧
    GetFilesystemAttributes (mockUdevadm (str "A=1\nB=2=3\n") none) (str "/dev/sdb") =
      (none, some parseError) ∧
    GetFilesystemAttributes
        (mockUdevadm (str "ID_FS_UUID=11111111-2222-3333-4444-555555555555\nID_FS_LABEL=mydata\n")
          none) (str "/dev/sdb") =
      (some { UUID := str "11111111-2222-3333-4444-555555555555", Label := str "mydata" },
        none) :=
  ⟨(GetFilesystemAttributes_errors
      (mockUdevadm (str "B=2=3") (some (GoError.osError "exit status 1"))) (str "/dev/sdb")
      (str "B=2=3") (some (GoError.osError "exit status 1")) rfl).2.2.1 (by simp),
   (GetFilesystemAttributes_errors (mockUdevadm (str "A=1\nB=2=3\n") none) (str "/dev/sdb")
      (str "A=1\nB=2=3\n") none rfl).2.2.2 rfl (by decide),
   by decide⟩

/-! ## Claims C5, C8: `IsBlock` -/

/-- The twelve low bits of a mode word (permission, setuid, setgid and
sticky bits) do not reach the type mask. -/
theorem perm_land_S_IFMT (perm : Nat) (h : perm < 0x1000) : perm &&& S_IFMT = 0 := by
  apply Nat.eq_of_testBit_eq
  intro i
  rw [Nat.testBit_and, Nat.zero_testBit]
  by_cases hi : i < 12
  · have : S_IFMT.testBit i = false := by
      unfold S_IFMT
      interval_cases i <;> rfl
    rw [this, Bool.and_false]
  · have hlt : perm < 2 ^ i :=
      lt_of_lt_of_le h (by
        have : (2 : Nat) ^ 12 ≤ 2 ^ i := Nat.pow_le_pow_right (by decide) (by omega)
        simpa using this)
    rw [Nat.testBit_lt_two_pow hlt, Bool.false_and]

/-- The type bits of `t ||| perm` are those of `t`. -/
theorem type_bits_lor_perm (t perm : Nat) (h : perm < 0x1000) :
    (t ||| perm) &&& S_IFMT = t &&& S_IFMT := by
  rw [Nat.and_distrib_right, perm_land_S_IFMT perm h, Nat.or_zero]

/-- C5. With `stat` yielding the mode word `st.Mode` and the error `err`:
`IsBlock` returns `(true, nil)` iff `err` is nil and
`st.Mode AND S_IFMT = S_IFBLK`; it returns `(false, nil)` when `err` is nil
and the type bits are anything else, in particular for a regular file, a
character device, a directory, a symbolic link, a socket or a FIFO with any
permission, setuid, setgid and sticky bits; and it returns `(false, err)`
when `err` is non-nil. -/
theorem IsBlock_type_bits (stat : StatCall) (path : GoString) (st : Stat_t)
    (err : Option GoError) (hstat : stat path = (st, err)) :
    (IsBlock stat path = (true, none) ↔ err = none ∧ st.Mode &&& S_IFMT = S_IFBLK) ∧
    (err = none → st.Mode &&& S_IFMT ≠ S_IFBLK → IsBlock stat path = (false, none)) ∧
    (err = none →
      ∀ t ∈ [S_IFREG, S_IFCHR, S_IFDIR, S_IFLNK, S_IFSOCK, S_IFIFO], ∀ perm < 0x1000,
        st.Mode = t ||| perm → IsBlock stat path = (false, none)) ∧
    (err ≠ none → IsBlock stat path = (false, err)) := by
  have hother : err = none → st.Mode &&& S_IFMT ≠ S_IFBLK →
      IsBlock stat path = (false, none) := by
    intro he hne
    unfold IsBlock
    rw [hstat]
    simp [he, hne]
  refine ⟨?_, hother, ?_, ?_⟩
  · unfold IsBlock
    rw [hstat]
    by_cases he : err = none
    · simp [he]
    · simp [he]
  · intro he t ht perm hperm hmode
    apply hother he
    rw [hmode, type_bits_lor_perm t perm hperm]
    simp only [List.mem_cons, List.mem_singleton, List.not_mem_nil, or_false] at ht
    rcases ht with h | h | h | h | h | h <;> subst h <;> decide
  · intro he
    unfold IsBlock
    rw [hstat]
    simp [he]

/-- Instances of C5: a block device `brw-rw----` is classified as a block
device; a setuid regular file, a directory and a character device are not;
a failing `stat` gives `false` and its error. -/
theorem IsBlock_type_bits_witness :
    IsBlock (mockStat (S_IFBLK ||| 0x1B0) none) (str "/dev/sdb") = (true, none) ∧
    IsBlock (mockStat (S_IFREG ||| 0x9ED) none) (str "/usr/bin/sudo") = (false, none) ∧
    IsBlock (mockStat (S_IFDIR ||| 0x1ED) none) (str "/dev") = (false, none) ∧
    IsBlock (mockStat (S_IFCHR ||| 0x1B6) none) (str "/dev/null") = (false, none) ∧
    IsBlock (mockStat 0 (some (GoError.errno ENOENT))) (str "/nonexistent") =
      (false, some (GoError.errno ENOENT)) :=
  ⟨(IsBlock_type_bits (mockStat (S_IFBLK ||| 0x1B0) none) (str "/dev/sdb")
      { Mode := S_IFBLK ||| 0x1B0 } none rfl).1.2 ⟨rfl, by decide⟩,
   (IsBlock_type_bits (mockStat (S_IFREG ||| 0x9ED) none) (str "/usr/bin/sudo")
      { Mode := S_IFREG ||| 0x9ED } none rfl).2.2.1 rfl S_IFREG (by simp) 0x9ED (by decide) rfl,
   (IsBlock_type_bits (mockStat (S_IFDIR ||| 0x1ED) none) (str "/dev")
      { Mode := S_IFDIR ||| 0x1ED } none rfl).2.1 rfl (by decide),
   (IsBlock_type_bits (mockStat (S_IFCHR ||| 0x1B6) none) (str "/dev/null")
      { Mode := S_IFCHR ||| 0x1B6 } none rfl).2.1 rfl (by decide),
   (IsBlock_type_bits (mockStat 0 (some (GoError.errno ENOENT))) (str "/nonexistent")
      { Mode := 0 } (some (GoError.errno ENOENT)) rfl).2.2.2 (by simp)⟩

/-- C8, the claim as stated fails: on the host of `byIdLstat` / `byIdStat`
the path `/dev/disk/by-id/disk0` names a symbolic link, the `stat` call the
code issues reports the block special file the link leads to, and `IsBlock`
returns `true` for the path, not `false`. -/
theorem IsBlock_symlink_to_block_device_true :
    EntryIsSymlink byIdLstat (str "/dev/disk/by-id/disk0") ∧
    IsBlock byIdStat (str "/dev/disk/by-id/disk0") = (true, none) := by
  decide

/-- C8, amended. For a path whose entry is a symbolic link, `IsBlock` is
decided by what the `stat` call the code issues reports for the path, not
by the link itself: with `stat` yielding the mode word `st.Mode` and the
error `err`, `IsBlock` returns `(true, nil)` iff `err` is nil and
`st.Mode AND S_IFMT = S_IFBLK`, `(false, nil)` when `err` is nil and the
type bits are anything else, and `(false, err)` when `err` is non-nil; in
every case the result is a function of the `stat` outcome alone. -/
theorem IsBlock_symlink_decided_by_stat (lstat stat : StatCall) (path : GoString)
    (st : Stat_t) (err : Option GoError)
    (_hlink : EntryIsSymlink lstat path) (hstat : stat path = (st, err)) :
    (IsBlock stat path = (true, none) ↔ err = none ∧ st.Mode &&& S_IFMT = S_IFBLK) ∧
    (err = none → st.Mode &&& S_IFMT ≠ S_IFBLK → IsBlock stat path = (false, none)) ∧
    (err ≠ none → IsBlock stat path = (false, err)) ∧
    IsBlock stat path = (decide (err = none ∧ st.Mode &&& S_IFMT = S_IFBLK), err) := by
  have hval : IsBlock stat path =
      (decide (err = none ∧ st.Mode &&& S_IFMT = S_IFBLK), err) := by
    unfold IsBlock
    rw [hstat]
    by_cases he : err = none
    · simp [he]
    · simp [he]
  refine ⟨?_, ?_, ?_, hval⟩
  · rw [hval]
    by_cases he : err = none
    · simp [he]
    · simp [he]
  · intro he hne
    rw [hval]
    simp [he, hne]
  · intro he
    rw [hval]
    simp [he]

/-- Instances of the amended C8: a link to a block device is classified as
a block device; a link on which `stat` fails with `ENOENT` (a dangling
link) gives `false` with that error; a link on which `stat` reports a
directory gives `false`. -/
theorem IsBlock_symlink_decided_by_stat_witness :
    EntryIsSymlink byIdLstat (str "/dev/disk/by-id/disk0") ∧
    IsBlock byIdStat (str "/dev/disk/by-id/disk0") = (true, none) ∧
    IsBlock (mockStat 0 (some (GoError.errno ENOENT))) (str "/tmp/dangling") =
      (false, some (GoError.errno ENOENT)) ∧
    IsBlock (mockStat (S_IFDIR ||| 0x1ED) none) (str "/tmp/dirlink") = (false, none) :=
  ⟨by decide,
   (IsBlock_symlink_decided_by_stat byIdLstat byIdStat (str "/dev/disk/by-id/disk0")
      { Mode := S_IFBLK ||| 0x1B0 } none (by decide) rfl).1.2 ⟨rfl, by decide⟩,
   (IsBlock_symlink_decided_by_stat (mockStat (S_IFLNK ||| 0x1FF) none)
      (mockStat 0 (some (GoError.errno ENOENT))) (str "/tmp/dangling")
      { Mode := 0 } (some (GoError.errno ENOENT)) (by decide) rfl).2.2.1 (by simp),
   (IsBlock_symlink_decided_by_stat (mockStat (S_IFLNK ||| 0x1FF) none)
      (mockStat (S_IFDIR ||| 0x1ED) none) (str "/tmp/dirlink")
      { Mode := S_IFDIR ||| 0x1ED } none (by decide) rfl).2.1 rfl (by decide)⟩

/-! ## Claims C6, C7, C9: `GetBlockCapacityByte` -/

theorem int64OfBits_of_lt (w : Nat) (h : w < 2 ^ 63) : int64OfBits w = (w : Int) := by
  have h64 : w % 2 ^ 64 = w := Nat.mod_eq_of_lt (by omega)
  unfold int64OfBits
  rw [h64, if_pos h]

theorem int64OfBits_nonneg_iff (w : Nat) : 0 ≤ int64OfBits w ↔ w % 2 ^ 64 < 2 ^ 63 := by
  have hlt : w % 2 ^ 64 < 2 ^ 64 := Nat.mod_lt _ (by positivity)
  unfold int64OfBits
  split
  · next h => exact ⟨fun _ => h, fun _ => Int.ofNat_nonneg _⟩
  · next h =>
    constructor
    · intro h0
      omega
    · intro h1
      exact absurd h1 h

/-- The `int64` variable holds the same 64 bits as the word written. -/
theorem int64OfBits_emod (w : Nat) : int64OfBits w % 2 ^ 64 = ((w % 2 ^ 64 : Nat) : Int) := by
  have hlt : w % 2 ^ 64 < 2 ^ 64 := Nat.mod_lt _ (by positivity)
  unfold int64OfBits
  split
  · next h => omega
  · next h => omega

/-- The run of `GetBlockCapacityByte` when the open fails. -/
theorem GetBlockCapacityByte_of_open_error (k : Kernel) (path : GoString) (file : Nat)
    (err : Option GoError) (hopen : k.openFile path O_RDONLY 0 = (file, err))
    (he : err ≠ none) :
    GetBlockCapacityByte k path = ((0, err), [Event.openFile path O_RDONLY 0]) := by
  obtain ⟨openFile, ioctl⟩ := k
  simp only at hopen
  simp only [GetBlockCapacityByte, hopen]
  simp [he]

/-- The run of `GetBlockCapacityByte` when the open succeeds. -/
theorem GetBlockCapacityByte_of_open_ok (k : Kernel) (path : GoString) (file word errno : Nat)
    (hopen : k.openFile path O_RDONLY 0 = (file, none))
    (hioctl : k.ioctl file BLKGETSIZE64 = (word, errno)) :
    GetBlockCapacityByte k path =
      if errno ≠ 0 then
        ((0, some (GoError.errno errno)),
          [Event.openFile path O_RDONLY 0, Event.ioctl file BLKGETSIZE64, Event.close file])
      else
        ((int64OfBits word, none),
          [Event.openFile path O_RDONLY 0, Event.ioctl file BLKGETSIZE64, Event.close file]) := by
  obtain ⟨openFile, ioctl⟩ := k
  simp only at hopen hioctl
  simp only [GetBlockCapacityByte, hopen, hioctl]
  simp

/-- C6. With the open yielding the handle `file` and the error `err`, and
the `BLKGETSIZE64` ioctl on `file` yielding the word `word` and the errno
`errno`: (1) if the open fails the function returns `(0, err)` and the
trace has no ioctl event; (2) if the open succeeds and `errno` is non-zero
it returns `(0, errno)`; (3) if both succeed it returns the word written,
read as an `int64` (the same 64 bits; the same number when it is below
`2 ^ 63`), with a nil error. -/
theorem GetBlockCapacityByte_outcomes (k : Kernel) (path : GoString) (file : Nat)
    (err : Option GoError) (word errno : Nat)
    (hopen : k.openFile path O_RDONLY 0 = (file, err))
    (hioctl : k.ioctl file BLKGETSIZE64 = (word, errno)) :
    (err ≠ none →
      (GetBlockCapacityByte k path).1 = (0, err) ∧
        (GetBlockCapacityByte k path).2.filter Event.isIoctl = []) ∧
    (err = none → errno ≠ 0 →
      (GetBlockCapacityByte k path).1 = (0, some (GoError.errno errno))) ∧
    (err = none → errno = 0 →
      (GetBlockCapacityByte k path).1 = (int64OfBits word, none) ∧
        int64OfBits word % 2 ^ 64 = ((word % 2 ^ 64 : Nat) : Int) ∧
        (word < 2 ^ 63 → (GetBlockCapacityByte k path).1 = ((word : Int), none))) := by
  refine ⟨?_, ?_, ?_⟩
  · intro he
    rw [GetBlockCapacityByte_of_open_error k path file err hopen he]
    exact ⟨rfl, by simp [List.filter, Event.isIoctl]⟩
  · intro he hno
    subst he
    rw [GetBlockCapacityByte_of_open_ok k path file word errno hopen hioctl, if_pos hno]
  · intro he hno
    subst he
    have hres : (GetBlockCapacityByte k path).1 = (int64OfBits word, none) := by
      rw [GetBlockCapacityByte_of_open_ok k path file word errno hopen hioctl,
        if_neg (by simpa using hno)]
    refine ⟨hres, int64OfBits_emod word, fun hw => ?_⟩
    rw [hres, int64OfBits_of_lt word hw]

/-- Instances of C6: a failed open, a rejected ioctl (`ENOTTY`, 25) and a
device of 500107862016 bytes. -/
theorem GetBlockCapacityByte_outcomes_witness :
    (GetBlockCapacityByte (mockKernel (0, some (GoError.osError "no such file")) (0, 0))
        (str "/dev/none")).1 = (0, some (GoError.osError "no such file")) ∧
    (GetBlockCapacityByte (mockKernel (3, none) (0, 25)) (str "/etc/hosts")).1 =
      (0, some (GoError.errno 25)) ∧
    (GetBlockCapacityByte (mockKernel (3, none) (500107862016, 0)) (str "/dev/sdb")).1 =
      (500107862016, none) :=
  ⟨((GetBlockCapacityByte_outcomes
      (mockKernel (0, some (GoError.osError "no such file")) (0, 0)) (str "/dev/none")
      0 (some (GoError.osError "no such file")) 0 0 rfl rfl).1 (by simp)).1,
   (GetBlockCapacityByte_outcomes (mockKernel (3, none) (0, 25)) (str "/etc/hosts")
      3 none 0 25 rfl rfl).2.1 rfl (by decide),
   ((GetBlockCapacityByte_outcomes (mockKernel (3, none) (500107862016, 0)) (str "/dev/sdb")
      3 none 500107862016 0 rfl rfl).2.2 rfl rfl).2.2 (by decide)⟩

/-- C7, the claim as stated fails: when the open succeeds and the ioctl
succeeds writing the word `2 ^ 63`, `GetBlockCapacityByte` returns a nil
error and the negative count `-2 ^ 63`. -/
theorem GetBlockCapacityByte_negative_on_success :
    (GetBlockCapacityByte (mockKernel (3, none) (2 ^ 63, 0)) (str "/dev/sdb")).1 =
      (-9223372036854775808, none) ∧
    (GetBlockCapacityByte (mockKernel (3, none) (2 ^ 63, 0)) (str "/dev/sdb")).1.1 < 0 := by
  decide

/-- C7, amended. Whenever `GetBlockCapacityByte` returns a nil error, the
returned count is the 64-bit word the ioctl wrote, read as a signed 64-bit
integer; it is non-negative exactly when that word is below `2 ^ 63`, and
then it equals the word. -/
theorem GetBlockCapacityByte_success_value (k : Kernel) (path : GoString) (file : Nat)
    (err : Option GoError) (word errno : Nat)
    (hopen : k.openFile path O_RDONLY 0 = (file, err))
    (hioctl : k.ioctl file BLKGETSIZE64 = (word, errno))
    (hnil : (GetBlockCapacityByte k path).1.2 = none) :
    (GetBlockCapacityByte k path).1.1 = int64OfBits word ∧
    (0 ≤ (GetBlockCapacityByte k path).1.1 ↔ word % 2 ^ 64 < 2 ^ 63) ∧
    (word % 2 ^ 64 < 2 ^ 63 →
      (GetBlockCapacityByte k path).1.1 = ((word % 2 ^ 64 : Nat) : Int)) := by
  have hval : (GetBlockCapacityByte k path).1.1 = int64OfBits word := by
    by_cases he : err = none
    · subst he
      rw [GetBlockCapacityByte_of_open_ok k path file word errno hopen hioctl] at hnil ⊢
      by_cases hno : errno = 0
      · rw [if_neg (by simpa using hno)]
      · rw [if_pos hno] at hnil
        simp at hnil
    · rw [GetBlockCapacityByte_of_open_error k path file err hopen he] at hnil
      exact absurd hnil he
  refine ⟨hval, ?_, ?_⟩
  · rw [hval]
    exact int64OfBits_nonneg_iff word
  · intro hw
    rw [hval]
    unfold int64OfBits
    rw [if_pos hw]

/-- Instance of the amended C7: a device of 500107862016 bytes. -/
theorem GetBlockCapacityByte_success_value_witness :
    (GetBlockCapacityByte (mockKernel (3, none) (500107862016, 0)) (str "/dev/sdb")).1.2 = none ∧
    (0 ≤ (GetBlockCapacityByte (mockKernel (3, none) (500107862016, 0)) (str "/dev/sdb")).1.1 ↔
      500107862016 % 2 ^ 64 < 2 ^ 63) :=
  ⟨rfl, (GetBlockCapacityByte_success_value (mockKernel (3, none) (500107862016, 0))
      (str "/dev/sdb") 3 none 500107862016 0 rfl rfl rfl).2.1⟩

/-- C9. In every execution in which the open succeeds, on the ioctl-success
path and on the ioctl-failure path alike, the trace is open, ioctl, close:
the only close event is the close of the handle, it occurs once, and it is
the last event. When the open fails, the trace is the open alone: no close
and no ioctl event. -/
theorem GetBlockCapacityByte_closes_handle (k : Kernel) (path : GoString) (file : Nat)
    (err : Option GoError) (hopen : k.openFile path O_RDONLY 0 = (file, err)) :
    (err = none →
      (GetBlockCapacityByte k path).2 =
        [Event.openFile path O_RDONLY 0, Event.ioctl file BLKGETSIZE64, Event.close file] ∧
      (GetBlockCapacityByte k path).2.filter Event.isClose = [Event.close file] ∧
      (GetBlockCapacityByte k path).2.count (Event.close file) = 1 ∧
      (GetBlockCapacityByte k path).2.getLast? = some (Event.close file)) ∧
    (err ≠ none →
      (GetBlockCapacityByte k path).2 = [Event.openFile path O_RDONLY 0] ∧
      (GetBlockCapacityByte k path).2.filter Event.isClose = [] ∧
      (GetBlockCapacityByte k path).2.filter Event.isIoctl = []) := by
  constructor
  · intro he
    subst he
    have htrace : (GetBlockCapacityByte k path).2 =
        [Event.openFile path O_RDONLY 0, Event.ioctl file BLKGETSIZE64, Event.close file] := by
      rw [GetBlockCapacityByte_of_open_ok k path file (k.ioctl file BLKGETSIZE64).1
        (k.ioctl file BLKGETSIZE64).2 hopen rfl]
      split <;> rfl
    rw [htrace]
    refine ⟨rfl, ?_, ?_, ?_⟩
    · simp [List.filter, Event.isClose]
    · simp [List.count_cons]
    · simp
  · intro he
    rw [GetBlockCapacityByte_of_open_error k path file err hopen he]
    exact ⟨rfl, by simp [List.filter, Event.isClose], by simp [List.filter, Event.isIoctl]⟩

/-- Instances of C9: the traces of a successful query, of a rejected ioctl
and of a failed open. -/
theorem GetBlockCapacityByte_closes_handle_witness :
    (GetBlockCapacityByte (mockKernel (3, none) (500107862016, 0)) (str "/dev/sdb")).2.getLast? =
      some (Event.close 3) ∧
    (GetBlockCapacityByte (mockKernel (3, none) (0, 25)) (str "/etc/hosts")).2.filter
      Event.isClose = [Event.close 3] ∧
    (GetBlockCapacityByte (mockKernel (0, some (GoError.osError "no such file")) (0, 0))
      (str "/dev/none")).2.filter Event.isClose = [] :=
  ⟨((GetBlockCapacityByte_closes_handle (mockKernel (3, none) (500107862016, 0))
      (str "/dev/sdb") 3 none rfl).1 rfl).2.2.2,
   ((GetBlockCapacityByte_closes_handle (mockKernel (3, none) (0, 25))
      (str "/etc/hosts") 3 none rfl).1 rfl).2.1,
   ((GetBlockCapacityByte_closes_handle
      (mockKernel (0, some (GoError.osError "no such file")) (0, 0))
      (str "/dev/none") 0 (some (GoError.osError "no such file")) rfl).2 (by simp)).2.1⟩

end VolumeUtil
